import Mathlib

/-!
Verification of the NEST DQI pipeline (scripts/compute_dqi.py and
scripts/risk_ranking.py), shallowly embedded over ℚ.

Floating-point values are modelled as rationals; `pandas`/`numpy` rounding
(`Series.round(2)`, round-half-to-even) is modelled by `rhe`/`round2`, and
`Series.quantile(q)` (linear interpolation at position `q*(n-1)` of the
sorted values) by `quantile`.
-/

namespace NestDqi

/-- Round-half-to-even to an integer: the rounding used by `numpy`/`pandas`
(`Series.round`). -/
def rhe (x : ℚ) : ℤ :=
  if x - ⌊x⌋ < 1/2 then ⌊x⌋
  else if 1/2 < x - ⌊x⌋ then ⌊x⌋ + 1
  else if ⌊x⌋ % 2 = 0 then ⌊x⌋ else ⌊x⌋ + 1

/-- `round(x, 2)`: round to two decimal places, half to even. -/
def round2 (x : ℚ) : ℚ := (rhe (100 * x) : ℚ) / 100

/-- The signed rounding error when rounding `100 * p` to an integer
(i.e. `p` to two decimals). -/
def rheErr (p : ℚ) : ℚ := (rhe (100 * p) : ℚ) - 100 * p

/-- `CLINICAL_THRESHOLDS` from `compute_dqi.py`: the fixed per-signal clinical
acceptance thresholds, keyed by column name. -/
def CLINICAL_THRESHOLDS (s : String) : ℚ :=
  if s = "missing_pages_pct" then 5
  else if s = "missing_visits_pct" then 10
  else if s = "unresolved_edrr_pct" then 8
  else if s = "uncoded_terms_pct" then 7
  else if s = "pending_sae_pct" then 5
  else 0

/-- `normalize_signal_vs_threshold` from `compute_dqi.py`. -/
def normalize_signal_vs_threshold (signal_pct threshold_pct : ℚ) : ℚ :=
  if signal_pct ≤ threshold_pct then 0
  else min ((signal_pct - threshold_pct) / threshold_pct * 100) 100

/-- One input row of signal percentages (identifier columns are not used by
any numeric computation and are omitted). -/
structure SignalRecord where
  missing_pages_pct : ℚ
  missing_visits_pct : ℚ
  unresolved_edrr_pct : ℚ
  uncoded_terms_pct : ℚ
  pending_sae_pct : ℚ

/-- One output row of `compute_dqi_study_level` / `compute_dqi_site_level`. -/
structure DqiRecord extends SignalRecord where
  dqi_score : ℚ
  penalty_pages : ℚ
  penalty_visits : ℚ
  penalty_edrr : ℚ
  penalty_codes : ℚ
  penalty_sae : ℚ

/-- The per-row computation shared verbatim by `compute_dqi_study_level` and
`compute_dqi_site_level` in `compute_dqi.py`: normalize the five signals
against their clinical thresholds, take the weighted penalty with weights
10/15/15/12/25 (total 77), set `dqi_score = 100 - weighted_penalty` and the
per-signal contributions `pct_i * (W_i / total)`, all rounded to 2 decimals. -/
def aggregateRecord (r : SignalRecord) : DqiRecord :=
  let pctPages := normalize_signal_vs_threshold r.missing_pages_pct
    (CLINICAL_THRESHOLDS "missing_pages_pct")
  let pctVisits := normalize_signal_vs_threshold r.missing_visits_pct
    (CLINICAL_THRESHOLDS "missing_visits_pct")
  let pctEdrr := normalize_signal_vs_threshold r.unresolved_edrr_pct
    (CLINICAL_THRESHOLDS "unresolved_edrr_pct")
  let pctCodes := normalize_signal_vs_threshold r.uncoded_terms_pct
    (CLINICAL_THRESHOLDS "uncoded_terms_pct")
  let pctSae := normalize_signal_vs_threshold r.pending_sae_pct
    (CLINICAL_THRESHOLDS "pending_sae_pct")
  let total_weight : ℚ := 10 + 15 + 15 + 12 + 25
  let weighted_penalty :=
    (pctPages * 10 + pctVisits * 15 + pctEdrr * 15 + pctCodes * 12 + pctSae * 25)
      / total_weight
  { toSignalRecord := r
    dqi_score := round2 (100 - weighted_penalty)
    penalty_pages := round2 (pctPages * (10 / total_weight))
    penalty_visits := round2 (pctVisits * (15 / total_weight))
    penalty_edrr := round2 (pctEdrr * (15 / total_weight))
    penalty_codes := round2 (pctCodes * (12 / total_weight))
    penalty_sae := round2 (pctSae * (25 / total_weight)) }

/-- `compute_dqi_study_level` from `compute_dqi.py` (row-wise map). -/
def compute_dqi_study_level (rows : List SignalRecord) : List DqiRecord :=
  rows.map aggregateRecord

/-- `compute_dqi_site_level` from `compute_dqi.py`: textually identical
numeric computation to the study-level one. -/
def compute_dqi_site_level (rows : List SignalRecord) : List DqiRecord :=
  rows.map aggregateRecord

/-- Site-level output row of the `compute_dqi.py` `__main__` pipeline:
DQI columns plus the amplified score and the (optional) anomaly flag
column. -/
structure SiteDqiOut extends DqiRecord where
  dqi_score_amplified : ℚ
  is_anomalous : Option ℚ

/-- The `__main__` pipeline of `compute_dqi.py` in the degraded branch where
`ANOMALY_DETECTION_AVAILABLE = False`: compute the rule-based site DQI and add
the placeholder column `dqi_score_amplified = dqi_score`; no `is_anomalous`
column is produced. -/
def compute_dqi_pipeline_noML (site_signals : List SignalRecord) : List SiteDqiOut :=
  (compute_dqi_site_level site_signals).map
    (fun d => { toDqiRecord := d, dqi_score_amplified := d.dqi_score, is_anomalous := none })

/-- Number of rows flagged anomalous (`is_anomalous == 1`). -/
def anomalousCount (rows : List SiteDqiOut) : ℕ :=
  rows.countP (fun r => r.is_anomalous == some 1)

/-- The single output row of the degraded pipeline on the all-zero record. -/
def sampleSiteOut : SiteDqiOut :=
  { toDqiRecord := aggregateRecord ⟨0, 0, 0, 0, 0⟩,
    dqi_score_amplified := (aggregateRecord ⟨0, 0, 0, 0, 0⟩).dqi_score,
    is_anomalous := none }

/-- The linear-interpolation formula between index `i` and the next index
(clamped to the last position), evaluated at fractional position `h`. -/
def interpAt (s : List ℚ) (i : ℕ) (h : ℚ) : ℚ :=
  s.getD i 0 + (h - (i : ℚ)) * (s.getD (min (i + 1) (s.length - 1)) 0 - s.getD i 0)

/-- Linear interpolation of a (sorted) value list at fractional position `h`,
as done by `numpy`/`pandas` percentile computation: the value at index `⌊h⌋`
plus the fractional part times the gap to the next value. -/
def interpolate (s : List ℚ) (h : ℚ) : ℚ := interpAt s (⌊h⌋).toNat h

/-- `pandas.Series.quantile(q)` with the default linear interpolation:
interpolate the sorted values at position `q * (n - 1)`. -/
def quantile (xs : List ℚ) (q : ℚ) : ℚ :=
  interpolate (List.insertionSort (fun a b : ℚ => a ≤ b) xs)
    (q * ((xs.length : ℚ) - 1))

/-- The `assign_risk` closure inside `categorize_risk_with_guardrails` in
`risk_ranking.py`. -/
def assignRisk (p90 p75 s : ℚ) : String :=
  if s ≤ p90 then "High Risk" else if s ≤ p75 then "Medium Risk" else "Low Risk"

/-- `categorize_risk_with_guardrails` from `risk_ranking.py`: compute the
0.90- and 0.75-quantiles of the batch and map `assign_risk` over it. -/
def categorize_risk_with_guardrails (xs : List ℚ) : List String :=
  xs.map (assignRisk (quantile xs (9/10)) (quantile xs (3/4)))

/-- A pandas row for `identify_top_penalty_drivers`: an association list of
column name to numeric value (`row.index` is the list of keys). -/
abbrev Row : Type := List (String × ℚ)

/-- `row.index` membership domain. -/
def rowKeys (row : Row) : List String := row.map Prod.fst

/-- The `signal_cols` mapping of `identify_top_penalty_drivers` (new-style
penalty columns), in declaration order. -/
def newSignalCols : List (String × String) :=
  [("penalty_pages", "CRF Pages"), ("penalty_visits", "Missing Visits"),
   ("penalty_edrr", "EDRR Queries"), ("penalty_codes", "Uncoded Terms"),
   ("penalty_sae", "SAE Reviews")]

/-- The alternative (old-style raw percentage) mapping used when
`penalty_pages` is absent from the row. -/
def oldSignalCols : List (String × String) :=
  [("missing_pages_pct", "CRF Pages"), ("missing_visits_pct", "Missing Visits"),
   ("unresolved_edrr_pct", "EDRR Queries"), ("uncoded_terms_pct", "Uncoded Terms"),
   ("pending_sae_pct", "SAE Reviews")]

/-- Column mapping actually used for a given row: new-style if
`penalty_pages` is one of the row's columns, old-style otherwise. -/
def activeSignalCols (row : Row) : List (String × String) :=
  if "penalty_pages" ∈ rowKeys row then newSignalCols else oldSignalCols

/-- `float(row.get(col, 0))` guarded by `col in row.index`, as in the source:
the value of the column when present, 0 otherwise. -/
def penaltyValue (row : Row) (col : String) : ℚ :=
  if col ∈ rowKeys row then (row.lookup col).getD 0 else 0

/-- The `penalties` dict of `identify_top_penalty_drivers`, as a list of
(label, value) pairs in declaration order. -/
def penaltiesList (row : Row) : List (String × ℚ) :=
  (activeSignalCols row).map (fun cl => (cl.2, penaltyValue row cl.1))

/-- The ordering realized by Python's stable `sorted(..., key=value,
reverse=True)` on position-tagged entries: strictly larger value first, ties
broken by the original (declaration) position. -/
def driverRel (a b : ℕ × String × ℚ) : Prop :=
  b.2.2 < a.2.2 ∨ (a.2.2 = b.2.2 ∧ a.1 ≤ b.1)

instance : DecidableRel driverRel := fun a b => by
  unfold driverRel
  infer_instance

instance : IsTotal (ℕ × String × ℚ) driverRel := by
  constructor
  intro a b
  unfold driverRel
  rcases lt_trichotomy a.2.2 b.2.2 with h | h | h
  · right; left; exact h
  · rcases le_total a.1 b.1 with hle | hle
    · left; right; exact ⟨h, hle⟩
    · right; right; exact ⟨h.symm, hle⟩
  · left; left; exact h

instance : IsTrans (ℕ × String × ℚ) driverRel := by
  constructor
  intro a b c hab hbc
  unfold driverRel at hab hbc ⊢
  rcases hab with h1 | ⟨he1, hi1⟩ <;> rcases hbc with h2 | ⟨he2, hi2⟩
  · left; exact lt_trans h2 h1
  · left; rw [← he2]; exact h1
  · left; rw [he1]; exact h2
  · right; exact ⟨he1.trans he2, le_trans hi1 hi2⟩

/-- `sorted(penalties.items(), key=lambda x: x[1], reverse=True)` on the
position-tagged entries. -/
def sortedPenaltyEntries (row : Row) : List (ℕ × String × ℚ) :=
  List.insertionSort driverRel (penaltiesList row).enum

/-- `sorted_penalties[:top_n]` filtered to strictly positive values. -/
def driversAux (row : Row) (top_n : ℕ) : List (ℕ × String × ℚ) :=
  ((sortedPenaltyEntries row).take top_n).filter (fun e => 0 < e.2.2)

/-- `identify_top_penalty_drivers` from `risk_ranking.py`:
`[p[0] for p in sorted_penalties[:top_n] if p[1] > 0]`. -/
def identify_top_penalty_drivers (row : Row) (top_n : ℕ) : List String :=
  (driversAux row top_n).map (fun e => e.2.1)

/-- All column names either mapping may consult. -/
def expectedDriverColumns : List String :=
  newSignalCols.map Prod.fst ++ oldSignalCols.map Prod.fst

/-- A study-level DQI row as consumed by `rank_studies` (score columns only;
whether `dqi_score_amplified` actually exists as a column is tracked at the
table level, mirroring `pandas` column presence). -/
structure StudyRow where
  study_id : String
  dqi_score : ℚ
  dqi_score_amplified : ℚ

/-- A site-level DQI row as consumed by `rank_sites`. -/
structure SiteRow where
  study_id : String
  site_id : String
  dqi_score : ℚ
  dqi_score_amplified : ℚ

/-- Column access by name on a study row (`ranked[dqi_column]`). -/
def studyCol (c : String) (r : StudyRow) : ℚ :=
  if c = "dqi_score_amplified" then r.dqi_score_amplified else r.dqi_score

/-- Column access by name on a site row (`ranked[dqi_column]`). -/
def siteCol (c : String) (r : SiteRow) : ℚ :=
  if c = "dqi_score_amplified" then r.dqi_score_amplified else r.dqi_score

/-- `'dqi_score_amplified' if 'dqi_score_amplified' in ranked.columns else
'dqi_score'` — the column-selection line shared by `rank_studies` and
`rank_sites`. -/
def chooseDqiColumn (columns : List String) : String :=
  if "dqi_score_amplified" ∈ columns then "dqi_score_amplified" else "dqi_score"

/-- An output row of `rank_studies`. -/
structure RankedStudy where
  row : StudyRow
  risk_level : String
  rank : ℕ

/-- An output row of `rank_sites`. -/
structure RankedSite where
  row : SiteRow
  risk_level : String
  global_rank : ℕ
  within_study_rank : ℕ

/-- Attach 1-based consecutive ranks (`range(1, len+1)`) down a sorted study
list, starting from `k`. -/
def attachStudyRanks : ℕ → List (StudyRow × String) → List RankedStudy
  | _, [] => []
  | k, (r, lvl) :: rest => ⟨r, lvl, k⟩ :: attachStudyRanks (k + 1) rest

/-- Attach the 1-based global rank (from `k`) and the within-study rank
(`groupby('study_id').cumcount() + 1`: one plus the number of earlier rows of
the same study, accumulated in `seen`) down a sorted site list. -/
def attachSiteRanks : List SiteRow → ℕ → List (SiteRow × String) → List RankedSite
  | _, _, [] => []
  | seen, k, (r, lvl) :: rest =>
      ⟨r, lvl, k, seen.countP (fun x => x.study_id == r.study_id) + 1⟩ ::
        attachSiteRanks (r :: seen) (k + 1) rest

/-- The body of `rank_studies` for a given score column: per-row risk levels
from the batch quantiles, sort ascending by the score, attach ranks 1..n. -/
def rankStudiesBy (score : StudyRow → ℚ) (rows : List StudyRow) : List RankedStudy :=
  attachStudyRanks 1
    (List.insertionSort (fun a b => score a.1 ≤ score b.1)
      (rows.map (fun r =>
        (r, assignRisk (quantile (rows.map score) (9/10))
          (quantile (rows.map score) (3/4)) (score r)))))

/-- The body of `rank_sites` for a given score column: per-row risk levels,
global ascending sort, global ranks and within-study ranks. -/
def rankSitesBy (score : SiteRow → ℚ) (rows : List SiteRow) : List RankedSite :=
  attachSiteRanks [] 1
    (List.insertionSort (fun a b => score a.1 ≤ score b.1)
      (rows.map (fun r =>
        (r, assignRisk (quantile (rows.map score) (9/10))
          (quantile (rows.map score) (3/4)) (score r)))))

/-- `rank_studies` from `risk_ranking.py`: ranks by the chosen DQI column
(amplified when the column is present). -/
def rank_studies (columns : List String) (rows : List StudyRow) : List RankedStudy :=
  rankStudiesBy (studyCol (chooseDqiColumn columns)) rows

/-- `rank_sites` from `risk_ranking.py`: ranks by the chosen DQI column
(amplified when the column is present). -/
def rank_sites (columns : List String) (rows : List SiteRow) : List RankedSite :=
  rankSitesBy (siteCol (chooseDqiColumn columns)) rows

/-- A batch of 100 pairwise-distinct ascending scores: 1, 2, ..., 100. -/
def scores100 : List ℚ := (List.range 100).map (fun i : ℕ => (i : ℚ) + 1)

/-- A small non-degenerate batch of distinct scores. -/
def scores4 : List ℚ := [1, 2, 3, 4]

lemma abs_rhe_sub_le (x : ℚ) : |(rhe x : ℚ) - x| ≤ 1/2 := by
  have h0 : (⌊x⌋ : ℚ) ≤ x := Int.floor_le x
  have h1 : x < ⌊x⌋ + 1 := Int.lt_floor_add_one x
  unfold rhe
  split_ifs with ha hb hc <;> rw [abs_le] <;> constructor <;> push_cast <;> linarith

lemma rhe_tie_even {x : ℚ} (h : x - ⌊x⌋ = 1/2) : rhe x % 2 = 0 := by
  unfold rhe
  rw [h]
  norm_num
  split_ifs with hc
  · exact hc
  · omega

lemma rhe_intCast (m : ℤ) : rhe (m : ℚ) = m := by
  unfold rhe
  rw [Int.floor_intCast]
  norm_num

lemma floor_pos_half_int (c : ℤ) : ⌊(c : ℚ) + 1/2⌋ = c := by
  rw [Int.floor_int_add]
  have h : ⌊(1/2 : ℚ)⌋ = 0 := by rw [Int.floor_eq_iff]; norm_num
  rw [h, add_zero]

/-- If `rhe x` is at (decimal) distance exactly 1/2 from `x`, the tie rule
forces it even. -/
lemma rhe_half_dist_even (x : ℚ)
    (h : (rhe x : ℚ) - x = 1/2 ∨ x - (rhe x : ℚ) = 1/2) : rhe x % 2 = 0 := by
  apply rhe_tie_even
  rcases h with h | h
  · have hx : x = ((rhe x - 1 : ℤ) : ℚ) + 1/2 := by push_cast; linarith
    have hfl : ⌊x⌋ = rhe x - 1 :=
      (congrArg (fun y => ⌊y⌋) hx).trans (floor_pos_half_int _)
    rw [hfl]
    push_cast
    linarith
  · have hx : x = ((rhe x : ℤ) : ℚ) + 1/2 := by linarith
    have hfl : ⌊x⌋ = rhe x :=
      (congrArg (fun y => ⌊y⌋) hx).trans (floor_pos_half_int _)
    rw [hfl]
    linarith

/-- Central rounding lemma: shifting an integer `M` by `E` with `|E| ≤ 5/2`
and rounding moves it by at most 2, provided a tie at `±5/2` can only occur
when `M` is even. -/
lemma rhe_shift_bound (M : ℤ) (E : ℚ) (hE : |E| ≤ 5/2)
    (htop : E = 5/2 → M % 2 = 0) (hbot : E = -(5/2) → M % 2 = 0) :
    |(rhe ((M : ℚ) + E) : ℚ) - M| ≤ 2 := by
  have hclose : |(rhe ((M : ℚ) + E) : ℚ) - ((M : ℚ) + E)| ≤ 1/2 := abs_rhe_sub_le _
  have hEa := abs_le.mp hE
  have hca := abs_le.mp hclose
  have hub : ((rhe ((M : ℚ) + E) - M : ℤ) : ℚ) ≤ 3 := by push_cast; linarith
  have hlb : (((-3 : ℤ)) : ℚ) ≤ ((rhe ((M : ℚ) + E) - M : ℤ) : ℚ) := by push_cast; linarith
  have hub2 : rhe ((M : ℚ) + E) - M ≤ 3 := by exact_mod_cast hub
  have hlb2 : (-3 : ℤ) ≤ rhe ((M : ℚ) + E) - M := by exact_mod_cast hlb
  by_cases h3top : rhe ((M : ℚ) + E) - M = 3
  · exfalso
    have hkM : (rhe ((M : ℚ) + E) : ℚ) = (M : ℚ) + 3 := by
      have hc : ((rhe ((M : ℚ) + E) - M : ℤ) : ℚ) = 3 := by exact_mod_cast h3top
      push_cast at hc; linarith
    have hE52 : E = 5/2 := by
      rw [hkM] at hca
      obtain ⟨h1, h2⟩ := hca
      linarith
    have hMeven := htop hE52
    have heven : rhe ((M : ℚ) + E) % 2 = 0 := by
      apply rhe_half_dist_even
      left
      rw [hkM, hE52]
      ring
    omega
  · by_cases h3bot : rhe ((M : ℚ) + E) - M = -3
    · exfalso
      have hkM : (rhe ((M : ℚ) + E) : ℚ) = (M : ℚ) - 3 := by
        have hc : ((rhe ((M : ℚ) + E) - M : ℤ) : ℚ) = -3 := by exact_mod_cast h3bot
        push_cast at hc; linarith
      have hE52 : E = -(5/2) := by
        rw [hkM] at hca
        obtain ⟨h1, h2⟩ := hca
        linarith
      have hMeven := hbot hE52
      have heven : rhe ((M : ℚ) + E) % 2 = 0 := by
        apply rhe_half_dist_even
        right
        rw [hkM, hE52]
        ring
      omega
    · have h2ub : rhe ((M : ℚ) + E) - M ≤ 2 := by omega
      have h2lb : (-2 : ℤ) ≤ rhe ((M : ℚ) + E) - M := by omega
      rw [abs_le]
      constructor
      · have hc : (((-2 : ℤ)) : ℚ) ≤ ((rhe ((M : ℚ) + E) - M : ℤ) : ℚ) := by
          exact_mod_cast h2lb
        push_cast at hc; linarith
      · have hc : ((rhe ((M : ℚ) + E) - M : ℤ) : ℚ) ≤ 2 := by exact_mod_cast h2ub
        push_cast at hc; linarith

lemma abs_rheErr_le (p : ℚ) : |rheErr p| ≤ 1/2 := abs_rhe_sub_le (100 * p)

lemma threshold_pages_eq : CLINICAL_THRESHOLDS "missing_pages_pct" = 5 := rfl

lemma threshold_visits_eq : CLINICAL_THRESHOLDS "missing_visits_pct" = 10 := rfl

lemma threshold_edrr_eq : CLINICAL_THRESHOLDS "unresolved_edrr_pct" = 8 := rfl

lemma threshold_codes_eq : CLINICAL_THRESHOLDS "uncoded_terms_pct" = 7 := rfl

lemma threshold_sae_eq : CLINICAL_THRESHOLDS "pending_sae_pct" = 5 := rfl

lemma rheErr_tie_even {p : ℚ} (h : rheErr p = 1/2 ∨ rheErr p = -(1/2)) :
    rhe (100 * p) % 2 = 0 := by
  apply rhe_half_dist_even
  unfold rheErr at h
  rcases h with h | h
  · left; exact h
  · right; linarith

/-- The five rounded penalty contributions plus the rounded complement of
their sum reconstitute 100 to within 1/50 (= 0.02). This is the exact
worst case: half-to-even ties can never all round away from `M`'s parity. -/
lemma round2_sum_bound (p1 p2 p3 p4 p5 : ℚ) :
    |round2 (100 - (p1 + p2 + p3 + p4 + p5)) +
      (round2 p1 + round2 p2 + round2 p3 + round2 p4 + round2 p5) - 100| ≤ 1/50 := by
  set M : ℤ := 10000 - (rhe (100 * p1) + rhe (100 * p2) + rhe (100 * p3) +
    rhe (100 * p4) + rhe (100 * p5)) with hM
  set E : ℚ := rheErr p1 + rheErr p2 + rheErr p3 + rheErr p4 + rheErr p5 with hE
  have b1 := abs_le.mp (abs_rheErr_le p1)
  have b2 := abs_le.mp (abs_rheErr_le p2)
  have b3 := abs_le.mp (abs_rheErr_le p3)
  have b4 := abs_le.mp (abs_rheErr_le p4)
  have b5 := abs_le.mp (abs_rheErr_le p5)
  have hEbound : |E| ≤ 5/2 := by
    rw [hE, abs_le]; constructor <;> [linarith [b1.1, b2.1, b3.1, b4.1, b5.1];
      linarith [b1.2, b2.2, b3.2, b4.2, b5.2]]
  have htop : E = 5/2 → M % 2 = 0 := by
    intro h52
    rw [hE] at h52
    have e1 : rheErr p1 = 1/2 := by linarith [b1.2, b2.2, b3.2, b4.2, b5.2]
    have e2 : rheErr p2 = 1/2 := by linarith [b1.2, b2.2, b3.2, b4.2, b5.2]
    have e3 : rheErr p3 = 1/2 := by linarith [b1.2, b2.2, b3.2, b4.2, b5.2]
    have e4 : rheErr p4 = 1/2 := by linarith [b1.2, b2.2, b3.2, b4.2, b5.2]
    have e5 : rheErr p5 = 1/2 := by linarith [b1.2, b2.2, b3.2, b4.2, b5.2]
    have c1 := rheErr_tie_even (Or.inl e1)
    have c2 := rheErr_tie_even (Or.inl e2)
    have c3 := rheErr_tie_even (Or.inl e3)
    have c4 := rheErr_tie_even (Or.inl e4)
    have c5 := rheErr_tie_even (Or.inl e5)
    omega
  have hbot : E = -(5/2) → M % 2 = 0 := by
    intro h52
    rw [hE] at h52
    have e1 : rheErr p1 = -(1/2) := by linarith [b1.1, b2.1, b3.1, b4.1, b5.1]
    have e2 : rheErr p2 = -(1/2) := by linarith [b1.1, b2.1, b3.1, b4.1, b5.1]
    have e3 : rheErr p3 = -(1/2) := by linarith [b1.1, b2.1, b3.1, b4.1, b5.1]
    have e4 : rheErr p4 = -(1/2) := by linarith [b1.1, b2.1, b3.1, b4.1, b5.1]
    have e5 : rheErr p5 = -(1/2) := by linarith [b1.1, b2.1, b3.1, b4.1, b5.1]
    have c1 := rheErr_tie_even (Or.inr e1)
    have c2 := rheErr_tie_even (Or.inr e2)
    have c3 := rheErr_tie_even (Or.inr e3)
    have c4 := rheErr_tie_even (Or.inr e4)
    have c5 := rheErr_tie_even (Or.inr e5)
    omega
  have hmain := rhe_shift_bound M E hEbound htop hbot
  have hMcast : (M : ℚ) = 10000 - ((rhe (100 * p1) : ℚ) + (rhe (100 * p2) : ℚ) +
      (rhe (100 * p3) : ℚ) + (rhe (100 * p4) : ℚ) + (rhe (100 * p5) : ℚ)) := by
    rw [hM]; push_cast; ring
  have hkey : 100 * (100 - (p1 + p2 + p3 + p4 + p5)) = (M : ℚ) + E := by
    rw [hMcast, hE]; unfold rheErr; ring
  have hrw : round2 (100 - (p1 + p2 + p3 + p4 + p5)) =
      (rhe ((M : ℚ) + E) : ℚ) / 100 := by
    unfold round2; rw [hkey]
  have hexpr : round2 (100 - (p1 + p2 + p3 + p4 + p5)) +
      (round2 p1 + round2 p2 + round2 p3 + round2 p4 + round2 p5) - 100 =
      ((rhe ((M : ℚ) + E) : ℚ) - (M : ℚ)) / 100 := by
    rw [hrw]; unfold round2; rw [hMcast]; ring
  rw [hexpr, abs_div]
  have h100 : |(100 : ℚ)| = 100 := by norm_num
  rw [h100]
  linarith [hmain]

/-- Claim C4: for every record produced by the DQI aggregator (study-level or
site-level), the rounded `dqi_score` plus the sum of the five rounded
`penalty_<signal>` fields equals 100 within ±0.02; both level functions are
the row-wise map of the shared aggregation. -/
theorem dqi_score_plus_penalties_within_tolerance (r : SignalRecord)
    (rows : List SignalRecord) :
    |(aggregateRecord r).dqi_score +
      ((aggregateRecord r).penalty_pages + (aggregateRecord r).penalty_visits +
        (aggregateRecord r).penalty_edrr + (aggregateRecord r).penalty_codes +
        (aggregateRecord r).penalty_sae) - 100| ≤ 1/50 ∧
    compute_dqi_study_level rows = rows.map aggregateRecord ∧
    compute_dqi_site_level rows = rows.map aggregateRecord := by
  refine ⟨?_, rfl, rfl⟩
  show |round2 (100 - _) + (round2 _ + round2 _ + round2 _ + round2 _ + round2 _) - 100| ≤ 1/50
  have h := round2_sum_bound
    (normalize_signal_vs_threshold r.missing_pages_pct
      (CLINICAL_THRESHOLDS "missing_pages_pct") * (10 / (10 + 15 + 15 + 12 + 25)))
    (normalize_signal_vs_threshold r.missing_visits_pct
      (CLINICAL_THRESHOLDS "missing_visits_pct") * (15 / (10 + 15 + 15 + 12 + 25)))
    (normalize_signal_vs_threshold r.unresolved_edrr_pct
      (CLINICAL_THRESHOLDS "unresolved_edrr_pct") * (15 / (10 + 15 + 15 + 12 + 25)))
    (normalize_signal_vs_threshold r.uncoded_terms_pct
      (CLINICAL_THRESHOLDS "uncoded_terms_pct") * (12 / (10 + 15 + 15 + 12 + 25)))
    (normalize_signal_vs_threshold r.pending_sae_pct
      (CLINICAL_THRESHOLDS "pending_sae_pct") * (25 / (10 + 15 + 15 + 12 + 25)))
  have harg : (100 : ℚ) -
      (normalize_signal_vs_threshold r.missing_pages_pct
        (CLINICAL_THRESHOLDS "missing_pages_pct") * (10 / (10 + 15 + 15 + 12 + 25)) +
       normalize_signal_vs_threshold r.missing_visits_pct
        (CLINICAL_THRESHOLDS "missing_visits_pct") * (15 / (10 + 15 + 15 + 12 + 25)) +
       normalize_signal_vs_threshold r.unresolved_edrr_pct
        (CLINICAL_THRESHOLDS "unresolved_edrr_pct") * (15 / (10 + 15 + 15 + 12 + 25)) +
       normalize_signal_vs_threshold r.uncoded_terms_pct
        (CLINICAL_THRESHOLDS "uncoded_terms_pct") * (12 / (10 + 15 + 15 + 12 + 25)) +
       normalize_signal_vs_threshold r.pending_sae_pct
        (CLINICAL_THRESHOLDS "pending_sae_pct") * (25 / (10 + 15 + 15 + 12 + 25))) =
      100 - (normalize_signal_vs_threshold r.missing_pages_pct
          (CLINICAL_THRESHOLDS "missing_pages_pct") * 10 +
        normalize_signal_vs_threshold r.missing_visits_pct
          (CLINICAL_THRESHOLDS "missing_visits_pct") * 15 +
        normalize_signal_vs_threshold r.unresolved_edrr_pct
          (CLINICAL_THRESHOLDS "unresolved_edrr_pct") * 15 +
        normalize_signal_vs_threshold r.uncoded_terms_pct
          (CLINICAL_THRESHOLDS "uncoded_terms_pct") * 12 +
        normalize_signal_vs_threshold r.pending_sae_pct
          (CLINICAL_THRESHOLDS "pending_sae_pct") * 25) / (10 + 15 + 15 + 12 + 25) := by
    ring
  rw [harg] at h
  exact h

/-- Claim C5: the threshold normalizer returns 0 at or below the threshold,
`min(100, (s-t)/t*100)` above it, always lies in [0, 100], and returns
exactly 100 at twice the threshold (for positive thresholds). -/
theorem normalize_signal_contract (s t : ℚ) (ht : 0 < t) :
    (s ≤ t → normalize_signal_vs_threshold s t = 0) ∧
    (t < s → normalize_signal_vs_threshold s t = min 100 ((s - t) / t * 100)) ∧
    0 ≤ normalize_signal_vs_threshold s t ∧
    normalize_signal_vs_threshold s t ≤ 100 ∧
    (s = 2 * t → normalize_signal_vs_threshold s t = 100) := by
  unfold normalize_signal_vs_threshold
  by_cases hs : s ≤ t
  · rw [if_pos hs]
    refine ⟨fun _ => rfl, fun hlt => absurd hs (not_le.mpr hlt), le_refl 0, by norm_num, ?_⟩
    intro h2t
    exfalso
    rw [h2t] at hs
    linarith
  · rw [if_neg hs]
    push_neg at hs
    have hpos : 0 ≤ (s - t) / t * 100 := by
      apply mul_nonneg _ (by norm_num)
      exact div_nonneg (by linarith) ht.le
    refine ⟨fun hle => absurd hle (not_le.mpr hs), fun _ => min_comm _ _, ?_, min_le_right _ _, ?_⟩
    · exact le_min hpos (by norm_num)
    · intro h2t
      have : (s - t) / t * 100 = 100 := by
        rw [h2t]
        field_simp
        ring
      rw [this, min_self]

/-- Witness for C5 at the concrete input `s = 10`, `t = 5`. -/
theorem normalize_signal_contract_witness :
    (0 : ℚ) < 5 ∧ normalize_signal_vs_threshold 10 5 = 100 :=
  ⟨by norm_num, (normalize_signal_contract 10 5 (by norm_num)).2.2.2.2 (by norm_num)⟩

/-- Claim C9: a record with all five signals at or below their clinical
thresholds gets `dqi_score` exactly 100 from the DQI aggregator (study- and
site-level computations both being the row-wise aggregation). -/
theorem dqi_perfect_when_all_below_threshold (r : SignalRecord)
    (h1 : r.missing_pages_pct ≤ CLINICAL_THRESHOLDS "missing_pages_pct")
    (h2 : r.missing_visits_pct ≤ CLINICAL_THRESHOLDS "missing_visits_pct")
    (h3 : r.unresolved_edrr_pct ≤ CLINICAL_THRESHOLDS "unresolved_edrr_pct")
    (h4 : r.uncoded_terms_pct ≤ CLINICAL_THRESHOLDS "uncoded_terms_pct")
    (h5 : r.pending_sae_pct ≤ CLINICAL_THRESHOLDS "pending_sae_pct") :
    (aggregateRecord r).dqi_score = 100 ∧
    ∀ rows : List SignalRecord,
      compute_dqi_study_level rows = rows.map aggregateRecord ∧
      compute_dqi_site_level rows = rows.map aggregateRecord := by
  refine ⟨?_, fun rows => ⟨rfl, rfl⟩⟩
  show round2 (100 - _) = 100
  rw [normalize_signal_vs_threshold, if_pos h1]
  rw [normalize_signal_vs_threshold, if_pos h2]
  rw [normalize_signal_vs_threshold, if_pos h3]
  rw [normalize_signal_vs_threshold, if_pos h4]
  rw [normalize_signal_vs_threshold, if_pos h5]
  norm_num
  unfold round2
  have h : (100 : ℚ) * 100 = ((10000 : ℤ) : ℚ) := by norm_num
  rw [h, rhe_intCast]
  norm_num

/-- Witness for C9 at the all-zero record. -/
theorem dqi_perfect_when_all_below_threshold_witness :
    (aggregateRecord ⟨0, 0, 0, 0, 0⟩).dqi_score = 100 :=
  (dqi_perfect_when_all_below_threshold ⟨0, 0, 0, 0, 0⟩
    (by rw [threshold_pages_eq]; norm_num) (by rw [threshold_visits_eq]; norm_num)
    (by rw [threshold_edrr_eq]; norm_num) (by rw [threshold_codes_eq]; norm_num)
    (by rw [threshold_sae_eq]; norm_num)).1

/-- Claim C3: with the anomaly-detection dependency unavailable, every site
row of the pipeline output has `dqi_score_amplified = dqi_score` and no
`is_anomalous` flag, the anomalous-site count is 0, and the output is exactly
the non-amplified site DQI table with the placeholder column added. -/
theorem pipeline_noML_degrades_identically (site_signals : List SignalRecord) :
    (∀ r ∈ compute_dqi_pipeline_noML site_signals,
      r.dqi_score_amplified = r.dqi_score ∧ r.is_anomalous = none) ∧
    anomalousCount (compute_dqi_pipeline_noML site_signals) = 0 ∧
    compute_dqi_pipeline_noML site_signals = (compute_dqi_site_level site_signals).map
      (fun d => { toDqiRecord := d, dqi_score_amplified := d.dqi_score, is_anomalous := none }) := by
  refine ⟨?_, ?_, rfl⟩
  · intro r hr
    unfold compute_dqi_pipeline_noML at hr
    obtain ⟨d, _, rfl⟩ := List.mem_map.mp hr
    exact ⟨rfl, rfl⟩
  · unfold anomalousCount compute_dqi_pipeline_noML
    rw [List.countP_eq_zero]
    intro r hr
    obtain ⟨d, _, rfl⟩ := List.mem_map.mp hr
    simp

/-- Witness for C3 at a singleton batch: its one output row has the amplified
score equal to the base score and the anomalous count is 0. -/
theorem pipeline_noML_degrades_identically_witness :
    sampleSiteOut.dqi_score_amplified = sampleSiteOut.dqi_score ∧
    anomalousCount (compute_dqi_pipeline_noML [⟨0, 0, 0, 0, 0⟩]) = 0 :=
  ⟨((pipeline_noML_degrades_identically [⟨0, 0, 0, 0, 0⟩]).1 sampleSiteOut
      (List.mem_singleton_self sampleSiteOut)).1,
   (pipeline_noML_degrades_identically [⟨0, 0, 0, 0, 0⟩]).2.1⟩

lemma sorted_getD_mono {l : List ℚ} (hs : List.Sorted (fun a b : ℚ => a ≤ b) l)
    {i j : ℕ} (hij : i ≤ j) (hj : j < l.length) : l.getD i 0 ≤ l.getD j 0 := by
  have hi : i < l.length := lt_of_le_of_lt hij hj
  have h := hs.rel_get_of_le (a := ⟨i, hi⟩) (b := ⟨j, hj⟩) (Fin.mk_le_mk.mpr hij)
  rw [List.getD_eq_getElem l 0 hi, List.getD_eq_getElem l 0 hj]
  simpa using h

lemma sorted_lo_le_hi {s : List ℚ} (hs : List.Sorted (fun a b : ℚ => a ≤ b) s)
    {i : ℕ} (hin : i ≤ s.length - 1) (hn : 1 ≤ s.length) :
    s.getD i 0 ≤ s.getD (min (i + 1) (s.length - 1)) 0 := by
  apply sorted_getD_mono hs (le_min (Nat.le_succ i) hin)
  calc min (i + 1) (s.length - 1) ≤ s.length - 1 := min_le_right _ _
    _ < s.length := by omega

lemma interpolate_mono {s : List ℚ} (hs : List.Sorted (fun a b : ℚ => a ≤ b) s)
    (hn : 1 ≤ s.length) {h1 h2 : ℚ} (h01 : 0 ≤ h1) (h12 : h1 ≤ h2)
    (h2n : h2 ≤ (s.length : ℚ) - 1) :
    interpolate s h1 ≤ interpolate s h2 := by
  have h02 : 0 ≤ h2 := le_trans h01 h12
  have hf1 : (0 : ℤ) ≤ ⌊h1⌋ := Int.floor_nonneg.mpr h01
  have hf2 : (0 : ℤ) ≤ ⌊h2⌋ := Int.floor_nonneg.mpr h02
  have hc1 : (((⌊h1⌋).toNat : ℕ) : ℚ) = ((⌊h1⌋ : ℤ) : ℚ) := by
    exact_mod_cast congrArg (fun z : ℤ => (z : ℚ)) (Int.toNat_of_nonneg hf1)
  have hc2 : (((⌊h2⌋).toNat : ℕ) : ℚ) = ((⌊h2⌋ : ℤ) : ℚ) := by
    exact_mod_cast congrArg (fun z : ℤ => (z : ℚ)) (Int.toNat_of_nonneg hf2)
  have hlo1 : (((⌊h1⌋).toNat : ℕ) : ℚ) ≤ h1 := by rw [hc1]; exact Int.floor_le h1
  have hup1 : h1 < (((⌊h1⌋).toNat : ℕ) : ℚ) + 1 := by rw [hc1]; exact Int.lt_floor_add_one h1
  have hlo2 : (((⌊h2⌋).toNat : ℕ) : ℚ) ≤ h2 := by rw [hc2]; exact Int.floor_le h2
  have hi12 : (⌊h1⌋).toNat ≤ (⌊h2⌋).toNat := Int.toNat_le_toNat (Int.floor_le_floor h12)
  have hcastn : (s.length : ℚ) - 1 = ((s.length - 1 : ℕ) : ℚ) := by
    rw [Nat.cast_sub hn]; norm_num
  have hi2n : (⌊h2⌋).toNat ≤ s.length - 1 := by
    have hfl : ⌊h2⌋ ≤ ((s.length - 1 : ℕ) : ℤ) := by
      have := Int.floor_le_floor (α := ℚ) (hcastn ▸ h2n)
      rwa [Int.floor_natCast] at this
    have := Int.toNat_le_toNat hfl
    rwa [Int.toNat_natCast] at this
  have hi1n : (⌊h1⌋).toNat ≤ s.length - 1 := le_trans hi12 hi2n
  have hgap1 := sorted_lo_le_hi hs hi1n hn
  have hgap2 := sorted_lo_le_hi hs hi2n hn
  unfold interpolate interpAt
  rcases Nat.lt_or_ge (⌊h1⌋).toNat (⌊h2⌋).toNat with hlt | hge
  · -- strictly different cells: chain through the boundary values
    have hstep1 : s.getD (⌊h1⌋).toNat 0 + (h1 - (((⌊h1⌋).toNat : ℕ) : ℚ)) *
        (s.getD (min ((⌊h1⌋).toNat + 1) (s.length - 1)) 0 - s.getD (⌊h1⌋).toNat 0) ≤
        s.getD (min ((⌊h1⌋).toNat + 1) (s.length - 1)) 0 := by
      nlinarith [hgap1, hup1, hlo1]
    have hmid : s.getD (min ((⌊h1⌋).toNat + 1) (s.length - 1)) 0 ≤
        s.getD (⌊h2⌋).toNat 0 := by
      apply sorted_getD_mono hs
      · exact le_trans (min_le_left _ _) hlt
      · omega
    have hstep2 : s.getD (⌊h2⌋).toNat 0 ≤ s.getD (⌊h2⌋).toNat 0 +
        (h2 - (((⌊h2⌋).toNat : ℕ) : ℚ)) *
        (s.getD (min ((⌊h2⌋).toNat + 1) (s.length - 1)) 0 - s.getD (⌊h2⌋).toNat 0) := by
      nlinarith [hgap2, hlo2]
    linarith
  · -- same cell: the fractional part is larger on the right
    have heq : (⌊h1⌋).toNat = (⌊h2⌋).toNat := le_antisymm hi12 hge
    rw [heq]
    nlinarith [hgap2, h12]

lemma quantile_le_quantile (xs : List ℚ) {q1 q2 : ℚ} (hq0 : 0 ≤ q1)
    (hq12 : q1 ≤ q2) (hq21 : q2 ≤ 1) : quantile xs q1 ≤ quantile xs q2 := by
  unfold quantile
  rcases Nat.eq_zero_or_pos xs.length with hn | hn
  · have hxs : xs = [] := List.length_eq_zero.mp hn
    subst hxs
    have hz : ∀ h : ℚ, interpolate [] h = 0 := by
      intro h
      simp [interpolate, interpAt]
    rw [show List.insertionSort (fun a b : ℚ => a ≤ b) [] = [] from rfl, hz, hz]
  · have hsort := List.sorted_insertionSort (fun a b : ℚ => a ≤ b) xs
    have hlen : (List.insertionSort (fun a b : ℚ => a ≤ b) xs).length = xs.length :=
      (List.perm_insertionSort _ xs).length_eq
    have hone : (1 : ℚ) ≤ (xs.length : ℚ) := by exact_mod_cast hn
    have hnn : (0 : ℚ) ≤ (xs.length : ℚ) - 1 := by linarith
    apply interpolate_mono hsort (by omega)
    · exact mul_nonneg hq0 hnn
    · exact mul_le_mul_of_nonneg_right hq12 hnn
    · rw [hlen]
      calc q2 * ((xs.length : ℚ) - 1) ≤ 1 * ((xs.length : ℚ) - 1) :=
            mul_le_mul_of_nonneg_right hq21 hnn
        _ = (xs.length : ℚ) - 1 := one_mul _

/-- Claim C2 (amended): a score is assigned "Medium Risk" exactly when
`p90 < s ≤ p75`; but because the 0.90-quantile is always ≥ the 0.75-quantile,
that branch is unreachable — no score is ever assigned "Medium Risk". -/
theorem medium_risk_iff_and_unreachable (xs : List ℚ) (s : ℚ) :
    (assignRisk (quantile xs (9/10)) (quantile xs (3/4)) s = "Medium Risk" ↔
      quantile xs (9/10) < s ∧ s ≤ quantile xs (3/4)) ∧
    quantile xs (3/4) ≤ quantile xs (9/10) ∧
    assignRisk (quantile xs (9/10)) (quantile xs (3/4)) s ≠ "Medium Risk" ∧
    categorize_risk_with_guardrails xs =
      xs.map (assignRisk (quantile xs (9/10)) (quantile xs (3/4))) := by
  have hmono : quantile xs (3/4) ≤ quantile xs (9/10) :=
    quantile_le_quantile xs (by norm_num) (by norm_num) (by norm_num)
  have hiff : assignRisk (quantile xs (9/10)) (quantile xs (3/4)) s = "Medium Risk" ↔
      quantile xs (9/10) < s ∧ s ≤ quantile xs (3/4) := by
    unfold assignRisk
    split_ifs with hhigh hmed
    · constructor
      · intro h
        exact absurd h (by decide)
      · intro ⟨hlt, _⟩
        exact absurd hhigh (not_le.mpr hlt)
    · constructor
      · intro _
        exact ⟨not_le.mp hhigh, hmed⟩
      · intro _
        rfl
    · constructor
      · intro h
        exact absurd h (by decide)
      · intro ⟨_, hle⟩
        exact absurd hle hmed
  refine ⟨hiff, hmono, ?_, rfl⟩
  intro hmed
  obtain ⟨hlt, hle⟩ := hiff.mp hmed
  linarith

/-- Counterexample for C2 as stated: the batch `[1, 2, 3, 4]` is
non-degenerate (it contains distinct scores), yet its 0.90-quantile (3.7) is
not below its 0.75-quantile (3.25), and no score receives "Medium Risk". -/
theorem medium_risk_claim_counterexample :
    ¬ (quantile scores4 (9/10) < quantile scores4 (3/4)) ∧
    (1 : ℚ) ∈ scores4 ∧ (2 : ℚ) ∈ scores4 ∧ (1 : ℚ) ≠ 2 ∧
    categorize_risk_with_guardrails scores4 =
      ["High Risk", "High Risk", "High Risk", "Low Risk"] := by
  have hsorted : List.insertionSort (fun a b : ℚ => a ≤ b) scores4 = scores4 := by
    apply List.Sorted.insertionSort_eq
    norm_num [scores4, List.sorted_cons]
  have hlen : (scores4.length : ℚ) = 4 := by norm_num [scores4]
  have hfl90 : ⌊(27/10 : ℚ)⌋ = 2 := by rw [Int.floor_eq_iff]; norm_num
  have hfl75 : ⌊(9/4 : ℚ)⌋ = 2 := by rw [Int.floor_eq_iff]; norm_num
  have hq90 : quantile scores4 (9/10) = 37/10 := by
    unfold quantile
    rw [hsorted, hlen]
    have harg : (9/10 : ℚ) * (4 - 1) = 27/10 := by norm_num
    rw [harg]
    unfold interpolate interpAt
    rw [hfl90]
    rw [show Int.toNat 2 = 2 from rfl]
    rw [show scores4.getD 2 0 = 3 from rfl]
    rw [show scores4.getD (min (2 + 1) (scores4.length - 1)) 0 = 4 from rfl]
    push_cast
    norm_num
  have hq75 : quantile scores4 (3/4) = 13/4 := by
    unfold quantile
    rw [hsorted, hlen]
    have harg : (3/4 : ℚ) * (4 - 1) = 9/4 := by norm_num
    rw [harg]
    unfold interpolate interpAt
    rw [hfl75]
    rw [show Int.toNat 2 = 2 from rfl]
    rw [show scores4.getD 2 0 = 3 from rfl]
    rw [show scores4.getD (min (2 + 1) (scores4.length - 1)) 0 = 4 from rfl]
    push_cast
    norm_num
  refine ⟨by rw [hq90, hq75]; norm_num, by norm_num [scores4], by norm_num [scores4],
    by norm_num, ?_⟩
  unfold categorize_risk_with_guardrails
  rw [hq90, hq75]
  unfold scores4 assignRisk
  norm_num

/-- Witness for C2's amended statement at the concrete batch `[1,2,3,4]` and
score 2. -/
theorem medium_risk_iff_and_unreachable_witness :
    assignRisk (quantile scores4 (9/10)) (quantile scores4 (3/4)) 2 ≠ "Medium Risk" :=
  (medium_risk_iff_and_unreachable scores4 2).2.2.1

lemma map_eq_replicate_of_comm {α β : Type} (l : List α) (f : α → β) (c : β)
    (h : ∀ x ∈ l, f x = c) : l.map f = List.replicate l.length c := by
  induction l with
  | nil => rfl
  | cons a t ih =>
      rw [List.map_cons, List.length_cons, List.replicate_succ,
        h a (by simp), ih (fun x hx => h x (by simp [hx]))]

lemma scores100_sorted : List.Sorted (fun a b : ℚ => a ≤ b) scores100 := by
  unfold scores100
  rw [List.Sorted, List.pairwise_map]
  apply (List.pairwise_lt_range 100).imp
  intro a b hab
  have : (a : ℚ) ≤ b := by exact_mod_cast hab.le
  linarith

lemma scores100_length : scores100.length = 100 := by
  unfold scores100
  rw [List.length_map, List.length_range]

lemma scores100_getD_89 : scores100.getD 89 0 = 90 := by
  have hlt : 89 < scores100.length := by rw [scores100_length]; norm_num
  rw [List.getD_eq_getElem _ _ hlt]
  simp [scores100]
  norm_num

lemma scores100_getD_90 : scores100.getD 90 0 = 91 := by
  have hlt : 90 < scores100.length := by rw [scores100_length]; norm_num
  rw [List.getD_eq_getElem _ _ hlt]
  simp [scores100]
  norm_num

lemma scores100_getD_74 : scores100.getD 74 0 = 75 := by
  have hlt : 74 < scores100.length := by rw [scores100_length]; norm_num
  rw [List.getD_eq_getElem _ _ hlt]
  simp [scores100]
  norm_num

lemma scores100_getD_75 : scores100.getD 75 0 = 76 := by
  have hlt : 75 < scores100.length := by rw [scores100_length]; norm_num
  rw [List.getD_eq_getElem _ _ hlt]
  simp [scores100]
  norm_num

lemma scores100_q90 : quantile scores100 (9/10) = 901/10 := by
  unfold quantile
  rw [List.Sorted.insertionSort_eq scores100_sorted]
  rw [show ((scores100.length : ℚ)) = 100 by rw [scores100_length]; norm_num]
  rw [show (9/10 : ℚ) * (100 - 1) = 891/10 by norm_num]
  unfold interpolate interpAt
  rw [show ⌊(891/10 : ℚ)⌋ = 89 by rw [Int.floor_eq_iff]; norm_num]
  rw [show Int.toNat 89 = 89 from rfl]
  rw [show min (89 + 1) (scores100.length - 1) = 90 by rw [scores100_length]; omega]
  rw [scores100_getD_89, scores100_getD_90]
  push_cast
  norm_num

lemma scores100_q75 : quantile scores100 (3/4) = 301/4 := by
  unfold quantile
  rw [List.Sorted.insertionSort_eq scores100_sorted]
  rw [show ((scores100.length : ℚ)) = 100 by rw [scores100_length]; norm_num]
  rw [show (3/4 : ℚ) * (100 - 1) = 297/4 by norm_num]
  unfold interpolate interpAt
  rw [show ⌊(297/4 : ℚ)⌋ = 74 by rw [Int.floor_eq_iff]; norm_num]
  rw [show Int.toNat 74 = 74 from rfl]
  rw [show min (74 + 1) (scores100.length - 1) = 75 by rw [scores100_length]; omega]
  rw [scores100_getD_74, scores100_getD_75]
  push_cast
  norm_num

lemma scores100_split : scores100 =
    (List.range 90).map (fun i : ℕ => (i : ℚ) + 1) ++
      (List.range 10).map (fun i : ℕ => (i : ℚ) + 91) := by
  unfold scores100
  rw [show (100 : ℕ) = 90 + 10 from rfl, List.range_add, List.map_append, List.map_map]
  congr 1
  apply List.map_congr_left
  intro x _
  show ((90 + x : ℕ) : ℚ) + 1 = (x : ℚ) + 91
  push_cast
  ring

lemma categorize_scores100_eq : categorize_risk_with_guardrails scores100 =
    List.replicate 90 "High Risk" ++ List.replicate 10 "Low Risk" := by
  unfold categorize_risk_with_guardrails
  rw [scores100_q90, scores100_q75, scores100_split, List.map_append,
    List.map_map, List.map_map]
  congr 1
  · rw [map_eq_replicate_of_comm _ _ "High Risk" ?_, List.length_range]
    intro i hi
    rw [List.mem_range] at hi
    have hc : (i : ℚ) ≤ 89 := by exact_mod_cast Nat.lt_succ_iff.mp (by omega)
    show assignRisk (901/10) (301/4) ((i : ℚ) + 1) = "High Risk"
    unfold assignRisk
    rw [if_pos (by linarith)]
  · rw [map_eq_replicate_of_comm _ _ "Low Risk" ?_, List.length_range]
    intro i _
    have hc : (0 : ℚ) ≤ (i : ℚ) := Nat.cast_nonneg i
    show assignRisk (901/10) (301/4) ((i : ℚ) + 91) = "Low Risk"
    unfold assignRisk
    rw [if_neg (by intro hcon; linarith), if_neg (by intro hcon; linarith)]

lemma scores100_nodup : scores100.Nodup := by
  unfold scores100
  apply List.Nodup.map
  · intro a b hab
    have hab2 : (a : ℚ) + 1 = (b : ℚ) + 1 := hab
    have h : (a : ℚ) = (b : ℚ) := by linarith
    exact_mod_cast h
  · exact List.nodup_range 100

/-- Claim C1 evaluated at the failing input: on the batch of the 100 distinct
scores 1..100, `categorize_risk_with_guardrails` assigns "High Risk" to 90
scores (everything at or below the 0.90-quantile 90.1), "Medium Risk" to
none, and "Low Risk" to the other 10 — not 10/15/75 as claimed and as the
function's own docstring guarantees. -/
theorem categorize_counts_on_100_distinct_scores :
    scores100.Nodup ∧ scores100.length = 100 ∧
    (categorize_risk_with_guardrails scores100).count "High Risk" = 90 ∧
    (categorize_risk_with_guardrails scores100).count "Medium Risk" = 0 ∧
    (categorize_risk_with_guardrails scores100).count "Low Risk" = 10 := by
  refine ⟨scores100_nodup, scores100_length, ?_, ?_, ?_⟩ <;>
    rw [categorize_scores100_eq] <;> decide

lemma fst_unique_of_snd_nodup {l : List (String × String)}
    (hn : (l.map Prod.snd).Nodup) {c1 c2 lab : String}
    (h1 : (c1, lab) ∈ l) (h2 : (c2, lab) ∈ l) : c1 = c2 := by
  induction l with
  | nil => cases h1
  | cons p t ih =>
      rw [List.map_cons, List.nodup_cons] at hn
      rcases List.mem_cons.mp h1 with e1 | m1 <;> rcases List.mem_cons.mp h2 with e2 | m2
      · exact congrArg Prod.fst (e1.trans e2.symm)
      · exfalso
        have hmem : lab ∈ t.map Prod.snd := List.mem_map_of_mem Prod.snd m2
        have hp2 : p.2 = lab := by rw [← e1]
        exact hn.1 (hp2 ▸ hmem)
      · exfalso
        have hmem : lab ∈ t.map Prod.snd := List.mem_map_of_mem Prod.snd m1
        have hp2 : p.2 = lab := by rw [← e2]
        exact hn.1 (hp2 ▸ hmem)
      · exact ih hn.2 m1 m2

lemma activeSignalCols_labels_nodup (row : Row) :
    ((activeSignalCols row).map Prod.snd).Nodup := by
  unfold activeSignalCols
  split_ifs
  · decide
  · decide

/-- Claim C6: the driver attributor returns at most `n` labels, only labels
with strictly positive penalty, and in an order that is descending by penalty
value with ties broken by the declared signal order (`driverRel` on the
position-tagged entries). -/
theorem top_penalty_drivers_ordered_bounded_positive (row : Row) (n : ℕ) :
    identify_top_penalty_drivers row n = (driversAux row n).map (fun e => e.2.1) ∧
    (identify_top_penalty_drivers row n).length ≤ n ∧
    (∀ e ∈ driversAux row n, 0 < e.2.2) ∧
    List.Pairwise driverRel (driversAux row n) := by
  refine ⟨rfl, ?_, ?_, ?_⟩
  · show ((driversAux row n).map (fun e => e.2.1)).length ≤ n
    rw [List.length_map]
    calc (driversAux row n).length ≤ ((sortedPenaltyEntries row).take n).length :=
          List.length_filter_le _ _
      _ ≤ n := by rw [List.length_take]; exact min_le_left _ _
  · intro e he
    rw [driversAux, List.mem_filter] at he
    simpa using he.2
  · have hs : List.Pairwise driverRel (sortedPenaltyEntries row) :=
      List.sorted_insertionSort driverRel _
    exact List.Pairwise.sublist ((List.filter_sublist _).trans (List.take_sublist _ _)) hs

/-- Claim C10: the driver attributor is total over partial rows — a signal
whose (active-mapping) column is absent from the row is treated as penalty 0
and never returned, and a row containing none of the expected columns yields
the empty list. -/
theorem top_penalty_drivers_total_on_partial_rows (row : Row) (n : ℕ) :
    (∀ col label, (col, label) ∈ activeSignalCols row → col ∉ rowKeys row →
      label ∉ identify_top_penalty_drivers row n) ∧
    ((∀ c ∈ expectedDriverColumns, c ∉ rowKeys row) →
      identify_top_penalty_drivers row n = []) := by
  constructor
  · intro col label hmem habs hlabel
    obtain ⟨e, he, helab⟩ := List.mem_map.mp hlabel
    rw [driversAux, List.mem_filter] at he
    obtain ⟨hetake, hepos⟩ := he
    have hesorted : e ∈ sortedPenaltyEntries row := (List.take_sublist _ _).subset hetake
    have henum : e ∈ (penaltiesList row).enum :=
      ((List.perm_insertionSort driverRel _).mem_iff).mp hesorted
    have hsnd : e.2 ∈ penaltiesList row := by
      have h := List.mem_map_of_mem Prod.snd henum
      rwa [List.enum_map_snd] at h
    obtain ⟨cl, hcl, heq⟩ := List.mem_map.mp hsnd
    have hlab2 : cl.2 = label := by rw [← helab, ← heq]
    have hcl2 : (cl.1, label) ∈ activeSignalCols row := by
      rw [← hlab2]
      exact (Prod.mk.eta (p := cl)) ▸ hcl
    have hcol : cl.1 = col :=
      fst_unique_of_snd_nodup (activeSignalCols_labels_nodup row) hcl2 hmem
    have hval : e.2.2 = 0 := by
      rw [← heq]
      show penaltyValue row cl.1 = 0
      rw [hcol, penaltyValue, if_neg habs]
    simp only [decide_eq_true_eq] at hepos
    rw [hval] at hepos
    exact lt_irrefl 0 hepos
  · intro habs
    have hpp : "penalty_pages" ∉ rowKeys row := habs "penalty_pages" (by decide)
    have hact : activeSignalCols row = oldSignalCols := by
      rw [activeSignalCols, if_neg hpp]
    show (driversAux row n).map (fun e => e.2.1) = []
    rw [List.map_eq_nil_iff, driversAux, List.filter_eq_nil_iff]
    intro e hetake
    have hesorted : e ∈ sortedPenaltyEntries row := (List.take_sublist _ _).subset hetake
    have henum : e ∈ (penaltiesList row).enum :=
      ((List.perm_insertionSort driverRel _).mem_iff).mp hesorted
    have hsnd : e.2 ∈ penaltiesList row := by
      have h := List.mem_map_of_mem Prod.snd henum
      rwa [List.enum_map_snd] at h
    obtain ⟨cl, hcl, heq⟩ := List.mem_map.mp hsnd
    have hexp : cl.1 ∈ expectedDriverColumns := by
      rw [expectedDriverColumns]
      apply List.mem_append_right
      rw [hact] at hcl
      exact List.mem_map_of_mem Prod.fst hcl
    have hval : e.2.2 = 0 := by
      rw [← heq]
      show penaltyValue row cl.1 = 0
      rw [penaltyValue, if_neg (habs cl.1 hexp)]
    simp [hval]

/-- Witness for C10: the empty row has every expected column absent, so no
label is produced. -/
theorem top_penalty_drivers_total_witness :
    "CRF Pages" ∉ identify_top_penalty_drivers [] 2 ∧
    identify_top_penalty_drivers [] 2 = [] :=
  ⟨(top_penalty_drivers_total_on_partial_rows [] 2).1 "missing_pages_pct" "CRF Pages"
      (by decide) (by decide),
   (top_penalty_drivers_total_on_partial_rows [] 2).2 (by decide)⟩

lemma attachStudyRanks_map_rank (l : List (StudyRow × String)) :
    ∀ k, (attachStudyRanks k l).map RankedStudy.rank = List.range' k l.length := by
  induction l with
  | nil => intro k; rfl
  | cons p t ih =>
      intro k
      obtain ⟨r, lvl⟩ := p
      rw [attachStudyRanks, List.map_cons, List.length_cons, List.range'_succ, ih]

lemma attachStudyRanks_map_row (l : List (StudyRow × String)) :
    ∀ k, (attachStudyRanks k l).map RankedStudy.row = l.map Prod.fst := by
  induction l with
  | nil => intro k; rfl
  | cons p t ih =>
      intro k
      obtain ⟨r, lvl⟩ := p
      rw [attachStudyRanks, List.map_cons, List.map_cons, ih]

lemma attachSiteRanks_map_grank (l : List (SiteRow × String)) :
    ∀ seen k, (attachSiteRanks seen k l).map RankedSite.global_rank =
      List.range' k l.length := by
  induction l with
  | nil => intro seen k; rfl
  | cons p t ih =>
      intro seen k
      obtain ⟨r, lvl⟩ := p
      rw [attachSiteRanks, List.map_cons, List.length_cons, List.range'_succ, ih]

lemma attachSiteRanks_map_row (l : List (SiteRow × String)) :
    ∀ seen k, (attachSiteRanks seen k l).map RankedSite.row = l.map Prod.fst := by
  induction l with
  | nil => intro seen k; rfl
  | cons p t ih =>
      intro seen k
      obtain ⟨r, lvl⟩ := p
      rw [attachSiteRanks, List.map_cons, List.map_cons, ih]

lemma attachSiteRanks_within (l : List (SiteRow × String)) :
    ∀ (seen : List SiteRow) (k : ℕ) (s : String),
      ((attachSiteRanks seen k l).filter
          (fun o => o.row.study_id == s)).map RankedSite.within_study_rank =
        List.range' (seen.countP (fun x => x.study_id == s) + 1)
          (l.countP (fun p => p.1.study_id == s)) := by
  induction l with
  | nil => intro seen k s; rfl
  | cons p t ih =>
      intro seen k s
      obtain ⟨r, lvl⟩ := p
      rw [attachSiteRanks]
      simp only [List.filter_cons, List.countP_cons]
      by_cases hrs : r.study_id = s
      · have hb : (r.study_id == s) = true := beq_iff_eq.mpr hrs
        simp only [hb, if_true, List.map_cons]
        rw [ih]
        have hseen : (r :: seen).countP (fun x => x.study_id == s) =
            seen.countP (fun x => x.study_id == s) + 1 := by
          rw [List.countP_cons, hb]
          simp
        have hcount : seen.countP (fun x => x.study_id == r.study_id) =
            seen.countP (fun x => x.study_id == s) := by rw [hrs]
        rw [hseen, hcount, List.range'_succ]
      · have hb : (r.study_id == s) = false := by
          rw [beq_eq_false_iff_ne]
          exact hrs
        simp only [hb, Bool.false_eq_true, if_false]
        rw [ih]
        have hseen : (r :: seen).countP (fun x => x.study_id == s) =
            seen.countP (fun x => x.study_id == s) := by
          rw [List.countP_cons, hb]
          simp
        rw [hseen]
        simp

/-- Claim C7: for any score column, ranking sorts ascending by that column
and assigns the 1-based consecutive ranks 1..n; sites additionally get a
within-study rank that restarts at 1 per study and follows the same ascending
sort order inside each study. -/
theorem ranking_sorts_ascending_with_consecutive_ranks
    (gs : StudyRow → ℚ) (g : SiteRow → ℚ)
    (srows : List StudyRow) (trows : List SiteRow) :
    List.Pairwise (fun a b => gs a.row ≤ gs b.row) (rankStudiesBy gs srows) ∧
    (rankStudiesBy gs srows).map RankedStudy.rank = List.range' 1 srows.length ∧
    List.Pairwise (fun a b => g a.row ≤ g b.row) (rankSitesBy g trows) ∧
    (rankSitesBy g trows).map RankedSite.global_rank = List.range' 1 trows.length ∧
    ∀ s : String,
      ((rankSitesBy g trows).filter (fun o => o.row.study_id == s)).map
          RankedSite.within_study_rank =
        List.range' 1 (trows.countP (fun x => x.study_id == s)) ∧
      List.Pairwise (fun a b => g a.row ≤ g b.row)
        ((rankSitesBy g trows).filter (fun o => o.row.study_id == s)) := by
  haveI hts : IsTotal (StudyRow × String) (fun a b => gs a.1 ≤ gs b.1) :=
    ⟨fun a b => le_total _ _⟩
  haveI htrs : IsTrans (StudyRow × String) (fun a b => gs a.1 ≤ gs b.1) :=
    ⟨fun _ _ _ hab hbc => le_trans hab hbc⟩
  haveI htt : IsTotal (SiteRow × String) (fun a b => g a.1 ≤ g b.1) :=
    ⟨fun a b => le_total _ _⟩
  haveI htrt : IsTrans (SiteRow × String) (fun a b => g a.1 ≤ g b.1) :=
    ⟨fun _ _ _ hab hbc => le_trans hab hbc⟩
  have hpairS : List.Pairwise (fun a b => gs a.row ≤ gs b.row) (rankStudiesBy gs srows) := by
    have hsorted := List.sorted_insertionSort (fun a b => gs a.1 ≤ gs b.1)
      (srows.map (fun r =>
        (r, assignRisk (quantile (srows.map gs) (9/10))
          (quantile (srows.map gs) (3/4)) (gs r))))
    have hmapped : List.Pairwise (fun x y => gs x ≤ gs y)
        ((rankStudiesBy gs srows).map RankedStudy.row) := by
      rw [rankStudiesBy, attachStudyRanks_map_row]
      exact List.pairwise_map.mpr hsorted
    exact (List.pairwise_map (R := fun x y : StudyRow => gs x ≤ gs y)).mp hmapped
  have hpairT : List.Pairwise (fun a b => g a.row ≤ g b.row) (rankSitesBy g trows) := by
    have hsorted := List.sorted_insertionSort (fun a b => g a.1 ≤ g b.1)
      (trows.map (fun r =>
        (r, assignRisk (quantile (trows.map g) (9/10))
          (quantile (trows.map g) (3/4)) (g r))))
    have hmapped : List.Pairwise (fun x y => g x ≤ g y)
        ((rankSitesBy g trows).map RankedSite.row) := by
      rw [rankSitesBy, attachSiteRanks_map_row]
      exact List.pairwise_map.mpr hsorted
    exact (List.pairwise_map (R := fun x y : SiteRow => g x ≤ g y)).mp hmapped
  refine ⟨hpairS, ?_, hpairT, ?_, ?_⟩
  · rw [rankStudiesBy, attachStudyRanks_map_rank,
      (List.perm_insertionSort _ _).length_eq, List.length_map]
  · rw [rankSitesBy, attachSiteRanks_map_grank,
      (List.perm_insertionSort _ _).length_eq, List.length_map]
  · intro s
    constructor
    · rw [rankSitesBy, attachSiteRanks_within]
      have hc1 : (List.insertionSort (fun a b => g a.1 ≤ g b.1)
          (trows.map (fun r =>
            (r, assignRisk (quantile (trows.map g) (9/10))
              (quantile (trows.map g) (3/4)) (g r))))).countP
            (fun p => p.1.study_id == s) =
          trows.countP (fun x => x.study_id == s) := by
        rw [(List.perm_insertionSort _ _).countP_eq, List.countP_map]
        rfl
      rw [hc1]
      rfl
    · exact List.Pairwise.sublist (List.filter_sublist _) hpairT

/-- Claim C8: whenever `dqi_score_amplified` is among the table's columns,
both `rank_studies` and `rank_sites` rank (categorize and sort) by
`dqi_score_amplified`; otherwise they fall back to `dqi_score`. -/
theorem ranking_prefers_amplified_column (columns : List String)
    (srows : List StudyRow) (trows : List SiteRow) :
    ("dqi_score_amplified" ∈ columns →
      rank_studies columns srows =
        rankStudiesBy (fun r => r.dqi_score_amplified) srows ∧
      rank_sites columns trows =
        rankSitesBy (fun r => r.dqi_score_amplified) trows) ∧
    ("dqi_score_amplified" ∉ columns →
      rank_studies columns srows = rankStudiesBy (fun r => r.dqi_score) srows ∧
      rank_sites columns trows = rankSitesBy (fun r => r.dqi_score) trows) := by
  constructor
  · intro hmem
    have hcol : chooseDqiColumn columns = "dqi_score_amplified" := by
      rw [chooseDqiColumn, if_pos hmem]
    have hs : studyCol (chooseDqiColumn columns) = fun r => r.dqi_score_amplified := by
      funext r
      rw [hcol, studyCol, if_pos rfl]
    have ht : siteCol (chooseDqiColumn columns) = fun r => r.dqi_score_amplified := by
      funext r
      rw [hcol, siteCol, if_pos rfl]
    exact ⟨by rw [rank_studies, hs], by rw [rank_sites, ht]⟩
  · intro hmem
    have hcol : chooseDqiColumn columns = "dqi_score" := by
      rw [chooseDqiColumn, if_neg hmem]
    have hs : studyCol (chooseDqiColumn columns) = fun r => r.dqi_score := by
      funext r
      rw [hcol, studyCol, if_neg (by decide)]
    have ht : siteCol (chooseDqiColumn columns) = fun r => r.dqi_score := by
      funext r
      rw [hcol, siteCol, if_neg (by decide)]
    exact ⟨by rw [rank_studies, hs], by rw [rank_sites, ht]⟩

/-- Witness for C8 at concrete tables: one with the amplified column and one
without. -/
theorem ranking_prefers_amplified_column_witness :
    rank_studies ["dqi_score_amplified"] [] =
      rankStudiesBy (fun r => r.dqi_score_amplified) [] ∧
    rank_sites [] [] = rankSitesBy (fun r => r.dqi_score) [] :=
  ⟨((ranking_prefers_amplified_column ["dqi_score_amplified"] [] []).1 (by decide)).1,
   ((ranking_prefers_amplified_column [] [] []).2 (by decide)).2⟩

end NestDqi
